import Mathlib

/-!
# Verification of the shadowfax HTTP/1.1 server core

Shallow embedding of the shadowfax repository's core data structures and
algorithms, translated from the Go source:

* byte-level string helpers (`strings.ToLower`, `strings.TrimSpace`,
  `strings.Split`, ... restricted to the ASCII/byte behaviour the code uses),
* the header collection (`internal/headers`),
* the route trie (`internal/router`) and the router dispatch loop
  (`router/router.go`),
* the response writer state machine (`response`),
* the request-line parser (`request`),
* the chunked transfer-coding encoder (`internal/response/stream.go`) and
  decoder (`internal/request/chunked_reader.go`),
* the per-connection validation performed by `Server.handle`
  (`server/server.go`).

Go strings are modelled as lists of bytes (`List Nat`, each element < 256)
wherever byte-level behaviour matters, and as Lean `String` for the route
trie, whose operations are purely structural on ASCII path strings.
-/

namespace Shadowfax

/-- A Go string / byte slice: a list of bytes, each byte a natural number
(< 256 for real inputs). -/
abbrev Bytes := List Nat

/-- Embed a Lean string literal (ASCII) as a Go byte string. -/
def str2b (s : String) : Bytes := s.data.map Char.toNat

/-- Go `strings.ToLower`, restricted to its action on ASCII bytes
(the code only lower-cases header names and transfer codings, which are
ASCII). -/
def toLowerByte (b : Nat) : Nat := if 65 ≤ b ∧ b ≤ 90 then b + 32 else b

/-- Nat-wise lower-casing of a byte string. -/
def toLowerB (s : Bytes) : Bytes := s.map toLowerByte

/-- Go `unicode.IsSpace` on ASCII bytes: ' ', '\t', '\n', '\v', '\f', '\r'. -/
def isSpaceByte (b : Nat) : Bool := b = 32 || b = 9 || b = 10 || b = 11 || b = 12 || b = 13

/-- Go `strings.TrimSpace` on ASCII bytes. -/
def trimSpaceB (s : Bytes) : Bytes :=
  ((s.dropWhile isSpaceByte).reverse.dropWhile isSpaceByte).reverse

/-- SP or HTAB, the characters `headers.ParseFieldLine` trims around values. -/
def isSPorTAB (b : Nat) : Bool := b = 32 || b = 9

/-- Go `bytes.TrimLeft(s, " \t")`. -/
def trimLeftWS (s : Bytes) : Bytes := s.dropWhile isSPorTAB

/-- Go `bytes.TrimRight(s, " \t")`. -/
def trimRightWS (s : Bytes) : Bytes := (s.reverse.dropWhile isSPorTAB).reverse

/-- Go `bytes.Trim(s, " \t")`. -/
def trimWS (s : Bytes) : Bytes := trimRightWS (trimLeftWS s)

/-- Go `bytes.TrimRight(s, " ")` (space only), used by the
`"Host :"`-rejection check in `ParseFieldLine`. -/
def trimRightSpace (s : Bytes) : Bytes := (s.reverse.dropWhile (fun b => b = 32)).reverse

/-- Go `strings.Split(s, sep)` for a single-byte separator: always returns at
least one (possibly empty) piece. -/
def splitOnByte (sep : Nat) : Bytes → List Bytes
  | [] => [[]]
  | b :: rest =>
    match splitOnByte sep rest with
    | [] => [[]]
    | cur :: done => if b = sep then [] :: cur :: done else (b :: cur) :: done

/-! ## Header collection (`internal/headers/headers.go`, current version)

The Go `Headers` type wraps a `map[string]string` whose keys are kept in
canonical lower-case form.  We model it as an association list with distinct
keys; map iteration order is the single piece of behaviour the model fixes
that Go leaves unspecified. -/

/-- RFC 9110 token bytes, from the regex
`^[a-zA-Z0-9!#$%&'*+\-.^_` + "`" + `|~]+$` in `headers.go`. -/
def isTokenByte (b : Nat) : Bool :=
  (48 ≤ b && b ≤ 57) || (65 ≤ b && b ≤ 90) || (97 ≤ b && b ≤ 122) ||
  b = 33 || b = 35 || b = 36 || b = 37 || b = 38 || b = 39 || b = 42 ||
  b = 43 || b = 45 || b = 46 || b = 94 || b = 95 || b = 96 || b = 124 || b = 126

/-- Go `isValidFieldName`: non-empty sequence of token bytes. -/
def isValidFieldName (k : Bytes) : Bool := !k.isEmpty && k.all isTokenByte

/-- Go `validHeaderValueByte`: HTAB / SP / VCHAR / obs-text. -/
def validHeaderValueByte (b : Nat) : Bool :=
  b = 9 || b = 32 || (33 ≤ b && b ≤ 126) || (128 ≤ b && b < 256)

/-- Go `isValidFieldValue`. -/
def isValidFieldValue (v : Bytes) : Bool := v.all validHeaderValueByte

/-- Go `normalizeKey`. -/
def normalizeKey (k : Bytes) : Bytes := toLowerB k

/-- The header collection: canonical-key → combined-value association list. -/
abbrev Headers := List (Bytes × Bytes)

/-- Raw map lookup `h.headers[key]` (no normalisation). -/
def hLookup : Headers → Bytes → Option Bytes
  | [], _ => none
  | p :: rest, key => if p.1 = key then some p.2 else hLookup rest key

/-- In-place replacement of the value stored under `key`. -/
def hUpdate : Headers → Bytes → Bytes → Headers
  | [], _, _ => []
  | p :: rest, key, v =>
    if p.1 = key then (p.1, v) :: hUpdate rest key v else p :: hUpdate rest key v

/-- Go `Headers.Add`: drop invalid names/values, lower-case the key, comma-fold
a second value onto an existing one. -/
def hAdd (h : Headers) (k v : Bytes) : Headers :=
  if !(isValidFieldName k && isValidFieldValue v) then h
  else
    match hLookup h (normalizeKey k) with
    | some existing => hUpdate h (normalizeKey k) (existing ++ str2b ", " ++ v)
    | none => h ++ [(normalizeKey k, v)]

/-- Go `Headers.Get` (empty string when absent). -/
def hGet (h : Headers) (k : Bytes) : Bytes := (hLookup h (normalizeKey k)).getD []

/-- Go `Headers.Remove`. -/
def hRemove (h : Headers) (k : Bytes) : Headers :=
  h.filter (fun p => !(p.1 == normalizeKey k))

/-- Go `Headers.Size`. -/
def hSize (h : Headers) : Nat := h.length

/-- Go `Headers.ParseFieldLine`: split at the first `':'`, forbid trailing
space before the colon, trim the value, validate both sides, then `Add`. -/
def parseFieldLine (h : Headers) (data : Bytes) : Option Headers :=
  let before := data.takeWhile (fun b => !(b == 58))
  if before.length = data.length then
    none
  else
    let hkey := trimLeftWS before
    let hvalue := trimWS (data.drop (before.length + 1))
    if hkey ≠ trimRightSpace hkey then none
    else if !(isValidFieldName hkey && isValidFieldValue hvalue) then none
    else some (hAdd h hkey hvalue)

/-! ## Route trie (`internal/router/router.go`)

Paths are Go strings; the trie operations compare whole segments, so we keep
Lean `String` here. -/

/-- Go `strings.Split(s, "/")` on strings (always at least one piece). -/
def splitSlash : List Char → List String
  | [] => [""]
  | c :: rest =>
    match splitSlash rest with
    | [] => [""]
    | cur :: done => if c = '/' then "" :: cur :: done else (String.mk [c] ++ cur) :: done

/-- Go `strings.Trim(path, "/")`. -/
def trimSlashes (s : String) : String :=
  String.mk (((s.data.dropWhile (· = '/')).reverse.dropWhile (· = '/')).reverse)

/-- The segment list both `AddRoute` and `Match` walk:
`strings.Split(strings.Trim(path, "/"), "/")`. -/
def pathSegments (path : String) : List String := splitSlash (trimSlashes path).data

/-- Go `TrieNode`: static children, at most one parameter child and one wildcard
child (each with a name slot stored on the parent), and an optional handler.
`α` stands for the `server.Handler` payload. -/
inductive TrieNode (α : Type) : Type where
  | node (children : List (String × TrieNode α)) (paramChild : Option (TrieNode α))
      (paramName : String) (wildcardChild : Option (TrieNode α)) (wildcardName : String)
      (handler : Option α) : TrieNode α

/-- Go `NewTrieNode`. -/
def TrieNode.new : TrieNode α := .node [] none "" none "" none

def TrieNode.children : TrieNode α → List (String × TrieNode α)
  | .node c _ _ _ _ _ => c

def TrieNode.paramChild : TrieNode α → Option (TrieNode α)
  | .node _ p _ _ _ _ => p

def TrieNode.paramName : TrieNode α → String
  | .node _ _ n _ _ _ => n

def TrieNode.wildcardChild : TrieNode α → Option (TrieNode α)
  | .node _ _ _ w _ _ => w

def TrieNode.wildcardName : TrieNode α → String
  | .node _ _ _ _ n _ => n

def TrieNode.handler : TrieNode α → Option α
  | .node _ _ _ _ _ h => h

/-- Lookup in the static-children map. -/
def lookupChild (cs : List (String × TrieNode α)) (s : String) : Option (TrieNode α) :=
  (cs.find? (fun p => p.1 == s)).map (·.2)

/-- Replace (or insert) a static child, modelling the in-place map mutation. -/
def setChild (cs : List (String × TrieNode α)) (s : String) (c : TrieNode α) :
    List (String × TrieNode α) :=
  if (cs.find? (fun p => p.1 == s)).isSome then
    cs.map (fun p => if p.1 == s then (p.1, c) else p)
  else cs ++ [(s, c)]

/-- The segment walk of Go `TrieNode.AddRoute` (functional rendering of the
in-place mutation): `:name` takes the parameter slot, `*name` the wildcard
slot (overwriting the stored name in both cases), anything else is static;
empty segments are skipped and the final node receives the handler. -/
def TrieNode.addSegs : TrieNode α → List String → α → TrieNode α
  | n, [], h =>
    match n with
    | .node cs pc pn wc wn _ => .node cs pc pn wc wn (some h)
  | n, s :: rest, h =>
    if s = "" then n.addSegs rest h
    else if s.data.head? = some ':' then
      let pname := s.drop 1
      let child := n.paramChild.getD TrieNode.new
      match n with
      | .node cs _ _ wc wn hd => .node cs (some (child.addSegs rest h)) pname wc wn hd
    else if s.data.head? = some '*' then
      let wname := s.drop 1
      let child := n.wildcardChild.getD TrieNode.new
      match n with
      | .node cs pc pn _ _ hd => .node cs pc pn (some (child.addSegs rest h)) wname hd
    else
      let child := (lookupChild n.children s).getD TrieNode.new
      match n with
      | .node _ pc pn wc wn hd =>
          .node (setChild n.children s (child.addSegs rest h)) pc pn wc wn hd

/-- Go `TrieNode.AddRoute`. -/
def TrieNode.addRoute (n : TrieNode α) (path : String) (h : α) : TrieNode α :=
  n.addSegs (pathSegments path) h

/-- Result of a Go function that may hit a run-time panic (here: the nil
pointer dereference `currentNode.children[...]` when `Match` is invoked on a
nil `*TrieNode`). -/
inductive GoResult (β : Type) : Type where
  | panic : GoResult β
  | ok (b : β) : GoResult β
  deriving DecidableEq

def GoResult.isOk : GoResult β → Bool
  | .panic => false
  | .ok _ => true

/-- Path-parameter map (Go `map[string]string`, insertion-ordered model). -/
abbrev Params := List (String × String)

/-- Go `strings.Join(segs, "/")`. -/
def joinSlash (segs : List String) : String := String.intercalate "/" segs

/-- The segment loop of Go `TrieNode.Match`, with Go nil-receiver semantics:
`cur = none` models a nil `*TrieNode` (accessing its children panics; the
final `currentNode == nil` check returns the nil/nil miss).  The overall
result is `none` for Go's `return nil, nil` miss, and `some (handler?, params)`
for the two returning paths that carry the parameter map. -/
def TrieNode.matchSegs : Option (TrieNode α) → List String → Params →
    GoResult (Option (Option α × Params))
  | cur, [], params =>
    match cur with
    | none => .ok none
    | some n => .ok (some (n.handler, params))
  | cur, s :: rest, params =>
    if s = "" then TrieNode.matchSegs cur rest params
    else
      match cur with
      | none => .panic
      | some n =>
        match lookupChild n.children s with
        | some child => TrieNode.matchSegs (some child) rest params
        | none =>
          match n.paramChild with
          | some child => TrieNode.matchSegs (some child) rest (params ++ [(n.paramName, s)])
          | none =>
            match n.wildcardChild with
            | some w => .ok (some (w.handler, params ++ [(n.wildcardName, joinSlash (s :: rest))]))
            | none => .ok none

/-- Go `TrieNode.Match`. -/
def TrieNode.goMatch (n : Option (TrieNode α)) (path : String) :
    GoResult (Option (Option α × Params)) :=
  TrieNode.matchSegs n (pathSegments path) []

/-! ## Response model (`response` package) -/

/-- The `reasonPhrases` table keyed by status code (unknown codes give ""). -/
def GetStatusReason (s : Nat) : String :=
  match s with
  | 100 => "Continue" | 101 => "Switching Protocols" | 102 => "Processing"
  | 200 => "OK" | 201 => "Created" | 202 => "Accepted"
  | 203 => "Non-Authoritative Information" | 204 => "No Content"
  | 205 => "Reset Content" | 206 => "Partial Content" | 207 => "Multi-Status"
  | 208 => "Already Reported" | 226 => "IM Used"
  | 300 => "Multiple Choices" | 301 => "Moved Permanently" | 302 => "Found"
  | 303 => "See Other" | 304 => "Not Modified" | 305 => "Use Proxy"
  | 307 => "Temporary Redirect" | 308 => "Permanent Redirect"
  | 400 => "Bad Request" | 401 => "Unauthorized" | 402 => "Payment Required"
  | 403 => "Forbidden" | 404 => "Not Found" | 405 => "Method Not Allowed"
  | 406 => "Not Acceptable" | 407 => "Proxy Authentication Required"
  | 408 => "Request Timeout" | 409 => "Conflict" | 410 => "Gone"
  | 411 => "Length Required" | 412 => "Precondition Failed"
  | 413 => "Payload Too Large" | 414 => "URI Too Long"
  | 415 => "Unsupported Media Type" | 416 => "Range Not Satisfiable"
  | 417 => "Expectation Failed" | 418 => "I'm a teapot"
  | 421 => "Misdirected Request" | 422 => "Unprocessable Entity"
  | 423 => "Locked" | 424 => "Failed Dependency" | 425 => "Too Early"
  | 426 => "Upgrade Required" | 428 => "Precondition Required"
  | 429 => "Too Many Requests" | 431 => "Request Header Fields Too Large"
  | 451 => "Unavailable For Legal Reasons"
  | 500 => "Internal Server Error" | 501 => "Not Implemented"
  | 502 => "Bad Gateway" | 503 => "Service Unavailable"
  | 504 => "Gateway Timeout" | 505 => "HTTP Version Not Supported"
  | 506 => "Variant Also Negotiates" | 507 => "Insufficient Storage"
  | 508 => "Loop Detected" | 510 => "Not Extended"
  | 511 => "Network Authentication Required"
  | _ => ""

/-- A response value: status code, header collection, and an optional body
source (`io.Reader`, here its total byte content). -/
structure Resp : Type where
  status : Nat
  headers : Headers
  body : Option Bytes
  deriving DecidableEq

/-- Go `response.NewBaseResponse`: status 200, `connection: close`, no body. -/
def newBaseResponse : Resp :=
  { status := 200, headers := hAdd [] (str2b "connection") (str2b "close"), body := none }

def Resp.withStatusCode (r : Resp) (code : Nat) : Resp := { r with status := code }

def Resp.withHeader (r : Resp) (k v : Bytes) : Resp := { r with headers := hAdd r.headers k v }

def Resp.withHeaders (r : Resp) (hs : List (Bytes × Bytes)) : Resp :=
  { r with headers := hs.foldl (fun acc p => hAdd acc p.1 p.2) r.headers }

def Resp.withBody (r : Resp) (b : Option Bytes) : Resp := { r with body := b }

/-- Go `response.NewTextResponse` (body given as its bytes). -/
def newTextResponse (body : String) : Resp :=
  ((newBaseResponse.withHeader (str2b "content-type") (str2b "text/plain")).withHeader
      (str2b "content-length") (str2b (toString (str2b body).length))).withBody
    (some (str2b body))

/-! ## Requests and the router (`request`, `router/router.go`)

The request carries a request line, headers, path parameters and the raw
target; the query mapping is parsed from the part of the target after the
first `'?'` (`RequestFromReader`). -/

/-- A parsed request, as the router and connection handler see it. -/
structure Req : Type where
  method : String
  target : String
  headers : Headers
  pathParams : Params
  deriving DecidableEq

/-- A route handler (`server.Handler`). -/
abbrev Handler := Req → Resp

/-- The query substring `RequestFromReader` cuts from the target: everything
after the first `'?'`, or empty when there is none (the target itself is kept
whole). -/
def queryStringOf (target : String) : String :=
  match target.data.dropWhile (· ≠ '?') with
  | [] => ""
  | _ :: rest => String.mk rest

/-- Go `defaultNotFoundHandler`. -/
def defaultNotFoundHandler : Handler := fun _ =>
  (newTextResponse (GetStatusReason 404)).withStatusCode 404

/-- The router: one tree per method plus the `ANY` tree and a not-found
handler.  This models `NewRouter(nil)` configurations (CORS disabled), the
only kind the dispatch claims exercise; middleware is the identity chain. -/
structure RouterModel : Type where
  getTree : TrieNode Handler
  postTree : TrieNode Handler
  putTree : TrieNode Handler
  patchTree : TrieNode Handler
  deleteTree : TrieNode Handler
  optionsTree : TrieNode Handler
  headTree : TrieNode Handler
  anyTree : TrieNode Handler
  notFoundHandler : Handler

/-- The keys of the `trees` map built by `NewRouter`. -/
def treeKeys : List String :=
  ["GET", "POST", "PUT", "PATCH", "DELETE", "OPTIONS", "HEAD", "ANY"]

/-- Go `router.trees[m]`: `none` models the nil pointer a missing key yields
(notably `trees["TRACE"]`). -/
def RouterModel.treeFor (rm : RouterModel) (m : String) : Option (TrieNode Handler) :=
  if m = "GET" then some rm.getTree
  else if m = "POST" then some rm.postTree
  else if m = "PUT" then some rm.putTree
  else if m = "PATCH" then some rm.patchTree
  else if m = "DELETE" then some rm.deleteTree
  else if m = "OPTIONS" then some rm.optionsTree
  else if m = "HEAD" then some rm.headTree
  else if m = "ANY" then some rm.anyTree
  else none

/-- Go `NewRouter(nil)` with the default not-found handler. -/
def newRouterModel : RouterModel :=
  { getTree := .new, postTree := .new, putTree := .new, patchTree := .new,
    deleteTree := .new, optionsTree := .new, headTree := .new, anyTree := .new,
    notFoundHandler := defaultNotFoundHandler }

/-- The `handler != nil` test the router applies to a `Match` result. -/
def matchedHandler (r : GoResult (Option (Option Handler × Params))) :
    GoResult (Option (Handler × Params)) :=
  match r with
  | .panic => .panic
  | .ok none => .ok none
  | .ok (some (none, _)) => .ok none
  | .ok (some (some h, ps)) => .ok (some (h, ps))

/-- Whether `tree.Match(path)` yields a non-nil handler (the 405 probe; the
trees probed there are the always-non-nil map entries, whose `Match` never
panics — `matchSegs_some_isOk` below). -/
def treeMatches (t : TrieNode Handler) (path : String) : Bool :=
  match matchedHandler (TrieNode.goMatch (some t) path) with
  | .ok (some _) => true
  | _ => false

/-- The routing handler built by `Router.Handler()` (CORS disabled, so the
preflight branch is skipped), propagating the nil-tree panic:
1. the request method's tree; 2. HEAD→GET fallback with the body stripped;
3. the `ANY` tree; 4. 405 when any other method's tree matches; 5. not-found. -/
def routerDispatch (rm : RouterModel) (r : Req) : GoResult Resp :=
  let path := r.target
  match matchedHandler (TrieNode.goMatch (rm.treeFor r.method) path) with
  | .panic => .panic
  | .ok (some (h, params)) => .ok (h { r with pathParams := params })
  | .ok none =>
    match (if r.method = "HEAD" then matchedHandler (TrieNode.goMatch (some rm.getTree) path)
           else .ok none) with
    | .panic => .panic
    | .ok (some (h, params)) => .ok ((h { r with pathParams := params }).withBody none)
    | .ok none =>
      match matchedHandler (TrieNode.goMatch (some rm.anyTree) path) with
      | .panic => .panic
      | .ok (some (h, params)) => .ok (h { r with pathParams := params })
      | .ok none =>
        if treeKeys.any (fun m =>
            m ≠ r.method && m ≠ "ANY" &&
            (match rm.treeFor m with
             | some t => treeMatches t path
             | none => false)) then
          .ok ((newTextResponse (GetStatusReason 405)).withStatusCode 405)
        else
          .ok (rm.notFoundHandler r)

/-! ## Response writer state machine (`ResponseWriter`, `responseState`) -/

/-- Go `responseState`. -/
inductive RState : Type where
  | statusLine | headersState | bodyState | done
  deriving DecidableEq

/-- Go `newResponseState`. -/
def newResponseState : RState := .statusLine

/-- Go `responseState.advance` (the `done` case panics in Go; no writer operation
ever advances from `done`, so the model maps it to itself). -/
def RState.advance : RState → RState
  | .statusLine => .headersState
  | .headersState => .bodyState
  | .bodyState => .done
  | .done => .done

/-- Position of a state in the status-line → headers → body → done order. -/
def RState.idx : RState → Nat
  | .statusLine => 0
  | .headersState => 1
  | .bodyState => 2
  | .done => 3

/-- The writer-state violation errors of `internal/response/errors.go`. -/
inductive WriterErr : Type where
  | statusLineAlreadyWritten  -- "status line already written"
  | headersAlreadyWritten     -- "headers already written"
  | bodyAlreadyWritten        -- ErrNoBodyState, "body already written"
  deriving DecidableEq

/-- Go `ResponseWriter`: connection sink (accumulated output bytes) and state. -/
structure RW : Type where
  out : Bytes
  state : RState
  deriving DecidableEq

/-- Go `NewResponseWriter`. -/
def newResponseWriter : RW := { out := [], state := newResponseState }

/-- Bytes of `fmt.Fprintf("HTTP/1.1 %d %s\r\n", code, GetStatusReason code)`. -/
def statusLineBytes (code : Nat) : Bytes :=
  str2b ("HTTP/1.1 " ++ toString code ++ " " ++ GetStatusReason code) ++ [13, 10]

/-- Bytes of the header block: one `name: value\r\n` line per header followed
by the blank `\r\n`. -/
def headerBlockBytes (h : Headers) : Bytes :=
  (h.map (fun p => p.1 ++ str2b ": " ++ p.2 ++ [13, 10])).flatten ++ [13, 10]

/-- Go `ResponseWriter.WriteStatusLine`: only legal in the status-line state; on
violation the error is returned before anything is written. -/
def writeStatusLine (rw : RW) (code : Nat) : Option WriterErr × RW :=
  if rw.state ≠ .statusLine then (some .statusLineAlreadyWritten, rw)
  else (none, { out := rw.out ++ statusLineBytes code, state := rw.state.advance })

/-- Go `ResponseWriter.WriteHeaders`. -/
def writeHeaders (rw : RW) (h : Headers) : Option WriterErr × RW :=
  if rw.state ≠ .headersState then (some .headersAlreadyWritten, rw)
  else (none, { out := rw.out ++ headerBlockBytes h, state := rw.state.advance })

/-- Go `ResponseWriter.WriteBody` (the body reader's total content as bytes). -/
def writeBody (rw : RW) (b : Bytes) : Option WriterErr × RW :=
  if rw.state ≠ .bodyState then (some .bodyAlreadyWritten, rw)
  else (none, { out := rw.out ++ b, state := rw.state.advance })

/-! ## Request-line parser (`request`, current version)

`parseRequestLine` matches the line against
`^(GET|POST|PUT|PATCH|OPTIONS|TRACE|DELETE|HEAD) ([^\s]*) HTTP\/1.1$`.
Note the unescaped `.` before the final `1`: it matches any byte except LF.
The alternation and the anchors make the decomposition unique: no method is a
prefix of another method followed by a space, the version suffix has fixed
length, and the target may not contain whitespace. -/

/-- RE2 `\s`: `[\t\n\f\r ]`. -/
def isRegexSpace (b : Nat) : Bool := b = 9 || b = 10 || b = 12 || b = 13 || b = 32

/-- The method alternation, in source order. -/
def methodAlternatives : List String :=
  ["GET", "POST", "PUT", "PATCH", "OPTIONS", "TRACE", "DELETE", "HEAD"]

/-- A parsed request line (HTTPVersion is hard-coded to "1.1" on success). -/
structure RequestLine : Type where
  method : String
  target : String
  httpVersion : String
  deriving DecidableEq

/-- Whether `rest` (the line after `"METHOD "`) matches
`([^\s]*) HTTP\/1.1$`, returning the captured target.  The suffix
`" HTTP/1.1"` with the unescaped dot is 9 bytes: `" HTTP/1"`, any byte except
LF, `"1"`. -/
def matchTargetAndVersion (rest : Bytes) : Option Bytes :=
  if rest.length < 9 then none
  else
    let target := rest.take (rest.length - 9)
    let suffix := rest.drop (rest.length - 9)
    if target.all (fun b => !isRegexSpace b) &&
        (suffix.take 7 == str2b " HTTP/1") &&
        (match suffix.drop 7 with
         | [c, d] => !(c == 10) && d == 49
         | _ => false) then
      some target
    else none

/-- Go `parseRequestLine` on the raw line bytes (input assumed free of the
CRLF terminator, which the line reader strips). -/
def parseRequestLine (reqLine : Bytes) : Option RequestLine :=
  match methodAlternatives.find? (fun m =>
      (reqLine.take (m.length + 1) == str2b (m ++ " ")) &&
      (matchTargetAndVersion (reqLine.drop (m.length + 1))).isSome) with
  | none => none
  | some m =>
    match matchTargetAndVersion (reqLine.drop (m.length + 1)) with
    | none => none
    | some target =>
      some { method := m, target := String.mk (target.map Char.ofNat),
             httpVersion := "1.1" }

/-! ## Hexadecimal chunk sizes

`fmt.Appendf("%x", n)` on the encoder side and
`strconv.ParseInt(s, 16, 64)` (`parseHexadecimal`) on the decoder side. -/

/-- Lower-case hex digit for a value < 16 (`%x`). -/
def hexDigitChar (n : Nat) : Nat := if n < 10 then 48 + n else 87 + n

/-- Value of a hex digit byte (upper or lower case), as `ParseInt` reads it. -/
def hexDigitVal (b : Nat) : Option Nat :=
  if 48 ≤ b ∧ b ≤ 57 then some (b - 48)
  else if 97 ≤ b ∧ b ≤ 102 then some (b - 87)
  else if 65 ≤ b ∧ b ≤ 70 then some (b - 55)
  else none

/-- Left-to-right accumulation of hex digits. -/
def parseHexDigits : Bytes → Nat → Option Nat
  | [], acc => some acc
  | b :: rest, acc =>
    match hexDigitVal b with
    | none => none
    | some v => parseHexDigits rest (acc * 16 + v)

/-- Go `parseHexadecimal` = `strconv.ParseInt(s, 16, 64)`: optional sign,
then one or more hex digits, within the int64 range. -/
def parseHexadecimal (s : Bytes) : Option Int :=
  if s.head? = some 43 || s.head? = some 45 then
    if s.tail.isEmpty then none
    else
      match parseHexDigits s.tail 0 with
      | none => none
      | some n =>
        if s.head? = some 45 then (if n ≤ 2 ^ 63 then some (-(n : Int)) else none)
        else (if n < 2 ^ 63 then some (n : Int) else none)
  else
    if s.isEmpty then none
    else
      match parseHexDigits s 0 with
      | none => none
      | some n => if n < 2 ^ 63 then some (n : Int) else none

/-- Rendering in `%x` of a positive number, using the value itself as recursion fuel. -/
def toHexAux : Nat → Nat → Bytes
  | 0, _ => []
  | fuel + 1, n => if n = 0 then [] else toHexAux fuel (n / 16) ++ [hexDigitChar (n % 16)]

/-- Go `fmt.Appendf("%x", n)` for a natural number. -/
def toHex (n : Nat) : Bytes := if n = 0 then [48] else toHexAux n n

/-! ## Chunked encoder (`internal/response/stream.go`, `chunkedReader.Read`)

Each upstream read of `n > 0` bytes emits `hex-size CRLF data CRLF`; upstream
EOF emits `0 CRLF`, one `name: value CRLF` line per entry of the populated
trailer collection, and a final CRLF.  The total stream output over a source
that yields the given blocks and then EOF is the concatenation of those
frames (the 4096-byte read buffer caps each block's size). -/

def crlfB : Bytes := [13, 10]

/-- The frame for one upstream read (`%x\r\n` + data + `\r\n`). -/
def chunkFrame (data : Bytes) : Bytes := toHex data.length ++ crlfB ++ data ++ crlfB

/-- One trailer line, `fmt.Sprintf("%s: %s\r\n", key, value)`. -/
def trailerLine (p : Bytes × Bytes) : Bytes := p.1 ++ str2b ": " ++ p.2 ++ crlfB

/-- The trailer lines emitted after the zero chunk (the `Size() > 0` guard in
the source only skips an empty loop). -/
def trailerBlock (t : Headers) : Bytes := (t.map trailerLine).flatten

/-- The terminal emission at upstream EOF: `0 CRLF`, trailer lines, CRLF. -/
def terminalChunk (t : Headers) : Bytes := str2b "0" ++ crlfB ++ trailerBlock t ++ crlfB

/-- Total encoder output for a source yielding `blocks` then EOF, with the
trailer collection `t` populated. -/
def encodeStream (blocks : List Bytes) (t : Headers) : Bytes :=
  (blocks.map chunkFrame).flatten ++ terminalChunk t

/-! ## Chunked decoder (`internal/request/chunked_reader.go`, `Decode`)

The decoder alternates the CRLF line reader (size lines, trailer lines) with
raw reads (chunk data, the CRLF after it) on the same stream. -/

/-- One `crlfReader.Read`: the line up to the first CRLF and the remaining
input, or `(partial, none)` when the stream ends first (Go returns the
partial buffer together with `io.EOF`). -/
def splitCRLF : Bytes → Bytes × Option Bytes
  | [] => ([], none)
  | [b] => ([b], none)
  | b :: c :: rest =>
    if b = 13 ∧ c = 10 then ([], some rest)
    else
      let r := splitCRLF (c :: rest)
      (b :: r.1, r.2)

/-- Read a chunk-size line: CRLF line, cut at the first `';'`
(`bytes.Cut(line, ";")`), then `parseHexadecimal`.  `Decode` treats `io.EOF`
from the line reader as benign, so the remainder defaults to empty. -/
def readSizeLine (input : Bytes) : Option (Int × Bytes) :=
  let lr := splitCRLF input
  let rest := lr.2.getD []
  (parseHexadecimal (lr.1.takeWhile (fun b => !(b == 59)))).map (fun n => (n, rest))

/-- The chunk loop of `Decode`: read a size line; while the size is positive,
read that many data bytes (`io.ReadFull`), insist on a CRLF, and continue.
Returns the accumulated body and the input left after the zero-size line. -/
def decodeChunks : Nat → Bytes → Bytes → Option (Bytes × Bytes)
  | 0, _, _ => none
  | fuel + 1, input, acc =>
    match readSizeLine input with
    | none => none
    | some (size, rest) =>
      if size ≤ 0 then some (acc, rest)
      else
        let n := size.toNat
        if rest.length < n then none
        else
          let data := rest.take n
          let rest2 := rest.drop n
          if rest2.length < 2 then none
          else if rest2.take 2 ≠ crlfB then none
          else decodeChunks fuel (rest2.drop 2) (acc ++ data)

/-- The trailer loop of `Decode`: parse field lines until an empty line or
end of stream (a partial line at EOF is discarded, matching the `io.EOF`
break). -/
def readTrailers : Nat → Bytes → Headers → Option Headers
  | 0, _, _ => none
  | fuel + 1, input, acc =>
    if input.isEmpty then some acc
    else
      let lr := splitCRLF input
      match lr.2 with
      | none => some acc
      | some rest =>
        if lr.1.isEmpty then some acc
        else
          match parseFieldLine acc lr.1 with
          | none => none
          | some acc2 => readTrailers fuel rest acc2

/-- Go `chunkedReader.Decode`: body bytes plus the trailer collection. -/
def chunkedDecode (input : Bytes) : Option (Bytes × Headers) :=
  match decodeChunks (input.length + 1) input [] with
  | none => none
  | some (body, rest) =>
    match readTrailers (rest.length + 1) rest [] with
    | none => none
    | some t => some (body, t)

/-! ## Connection-level request validation (`Server.handle`, steps 3–5)

After a successful parse, `handle` rejects the request (writing the bare 400
response, skipping the user handler, and closing the connection) when the
`Host` header is missing or splits into several entries, when both
`Content-Length` and `Transfer-Encoding` are present, or when
`TransferEncodings` errors.  Only on success does the user handler run; the
post-handler steps (Date stamping, conditional 304, keep-alive) are outside
this model, so `closeConn` in the accepted branch records only that the
connection is not yet marked for closing at handler-invocation time. -/

/-- The validation loop of `Request.transferEncodings` (`chunked` flag starts
false; any element that does not trim/lower-case to "chunked" is
`ErrNotImplemented`). -/
def checkEncs : List Bytes → Bool → Except Unit (List Bytes)
  | [], chunked => if chunked then .ok [str2b "chunked"] else .ok []
  | e :: rest, _ =>
    if toLowerB (trimSpaceB e) ≠ str2b "chunked" then .error ()
    else checkEncs rest true

/-- Go `Request.transferEncodings`: split the header on commas, reverse, and
require every element to resolve to "chunked". -/
def transferEncodings (hs : Headers) : Except Unit (List Bytes) :=
  let te := hGet hs (str2b "transfer-encoding")
  checkEncs (splitOnByte 44 te).reverse false

/-- The bare `response.NewBaseResponse().WithStatusCode(response.StatusBadRequest)`
written on validation failure: status 400 and no body. -/
def badReqResponse : Resp := newBaseResponse.withStatusCode 400

/-- Outcome of one `Server.handle` iteration up to handler invocation. -/
structure HandleOutcome : Type where
  resp : Resp
  handlerInvoked : Bool
  closeConn : Bool
  deriving DecidableEq

/-- Steps 3–5 of `Server.handle` for a successfully parsed request. -/
def handleParsed (handler : Handler) (req : Req) : HandleOutcome :=
  let hostHeader := hGet req.headers (str2b "host")
  if hostHeader = [] ∨ (splitOnByte 44 hostHeader).length > 1 then
    { resp := badReqResponse, handlerInvoked := false, closeConn := true }
  else if hGet req.headers (str2b "content-length") ≠ [] ∧
      hGet req.headers (str2b "transfer-encoding") ≠ [] then
    { resp := badReqResponse, handlerInvoked := false, closeConn := true }
  else
    match transferEncodings req.headers with
    | .error _ => { resp := badReqResponse, handlerInvoked := false, closeConn := true }
    | .ok _ => { resp := handler req, handlerInvoked := true, closeConn := false }

/-! ## Derived definitions used by the statements -/

/-- A sequence of `Add` calls starting from `NewHeaders()`. -/
def applyAdds (h : Headers) (adds : List (Bytes × Bytes)) : Headers :=
  adds.foldl (fun acc p => hAdd acc p.1 p.2) h

/-- Spec-side rendering of "the values joined by `', '` in insertion order"
(compared against what the code computes). -/
def joinComma : List Bytes → Bytes
  | [] => []
  | [v] => v
  | v :: vs => v ++ str2b ", " ++ joinComma vs

/-- The comma-folding `Add` performs, one value at a time. -/
def combineVals (o : Option Bytes) (vs : List Bytes) : Option Bytes :=
  vs.foldl (fun acc v =>
    match acc with
    | none => some v
    | some s => some (s ++ str2b ", " ++ v)) o

/-- The response headers `NewStreamResponse` sets: `transfer-encoding: chunked`
plus, when trailers are declared, `Trailer: name1, name2, …`. -/
def newStreamResponse (trailerList : List String) : Resp :=
  let base := newBaseResponse.withHeader (str2b "transfer-encoding") (str2b "chunked")
  if trailerList.length > 0 then
    base.withHeader (str2b "Trailer") (str2b (String.intercalate ", " trailerList))
  else base

/-- Observation of the terminal emission: the names of the trailer lines the
encoder wrote after the zero chunk, recovered with the decoder's own trailer
parser. -/
def emittedTrailerNames (t : Headers) : Option (List Bytes) :=
  (readTrailers ((trailerBlock t ++ crlfB).length + 1) (trailerBlock t ++ crlfB) []).map
    (List.map (·.1))

/-- The routing-scenario tree: `GET /users/:id` and `GET /users/admin`
registered in the same tree (handlers tagged 1 and 2). -/
def c1Tree : TrieNode Nat := (TrieNode.new.addRoute "/users/:id" 1).addRoute "/users/admin" 2

/-- The wildcard-scenario tree: `GET /static/*path` (handler tagged 7). -/
def c1WildTree : TrieNode Nat := TrieNode.new.addRoute "/static/*path" 7

/-- A router with `GET /home` and `GET /users/:id` registered. -/
def c10Router (hHome hUser : Handler) : RouterModel :=
  { newRouterModel with
    getTree := (TrieNode.new.addRoute "/home" hHome).addRoute "/users/:id" hUser }

/-- A router with only `GET /home` registered. -/
def homeOnlyRouter (hHome : Handler) : RouterModel :=
  { newRouterModel with getTree := TrieNode.new.addRoute "/home" hHome }

/-- A request without path parameters, as the parser hands it to the router. -/
def mkReq (m target : String) (hs : Headers) : Req :=
  { method := m, target := target, headers := hs, pathParams := [] }

/-- A trivial concrete handler for closed witnesses. -/
def c3Handler : Handler := fun _ => newBaseResponse

/-- A parsed request carrying an unsupported transfer coding. -/
def c8Req : Req :=
  { method := "POST", target := "/",
    headers := [(str2b "host", str2b "h"), (str2b "transfer-encoding", str2b "gzip")],
    pathParams := [] }

/-- A node with one static child, for the precedence witness. -/
def wStatic : TrieNode Nat := .node [("a", .new)] none "" none "" none

/-- A node with only a parameter child named "p". -/
def wParam : TrieNode Nat := .node [] (some .new) "p" none "" none

/-- A node with only a wildcard child named "w" whose handler is 9. -/
def wWild : TrieNode Nat := .node [] none "" (some (.node [] none "" none "" (some 9))) "w" none

/-! ## Helper lemmas -/

/-- Go `Match` on a non-nil trie node never hits the nil dereference: every
recursive step descends into a `some` child. -/
theorem matchSegs_some_isOk (segs : List String) :
    ∀ (n : TrieNode α) (params : Params),
    (TrieNode.matchSegs (some n) segs params).isOk = true := by
  induction segs with
  | nil => intro n params; rfl
  | cons s rest ih =>
    intro n params
    rw [TrieNode.matchSegs]
    by_cases hs : s = ""
    · simp only [if_pos hs]
      exact ih n params
    · simp only [if_neg hs]
      cases lookupChild n.children s with
      | some child => exact ih child params
      | none =>
        cases n.paramChild with
        | some child => exact ih child _
        | none =>
          cases n.wildcardChild with
          | some w => rfl
          | none => rfl

/-- The map `matchedHandler` preserves the panic/ok distinction. -/
theorem matchedHandler_isOk (x : GoResult (Option (Option Handler × Params))) :
    (matchedHandler x).isOk = x.isOk := by
  cases x with
  | panic => rfl
  | ok v =>
    match v with
    | none => rfl
    | some (none, _) => rfl
    | some (some _, _) => rfl

/-- The result `matchedHandler` of a non-nil tree's `Match` is never the panic result. -/
theorem matchedHandler_goMatch_some_ne_panic (n : TrieNode Handler) (path : String) :
    matchedHandler (TrieNode.goMatch (some n) path) ≠ .panic := by
  intro hEq
  have h1 := matchedHandler_isOk (TrieNode.goMatch (some n) path)
  rw [TrieNode.goMatch, matchSegs_some_isOk] at h1
  rw [TrieNode.goMatch] at hEq
  rw [hEq] at h1
  exact absurd h1.symm (by decide)

/-- Dispatch never panics when the request method owns a tree. -/
theorem dispatch_isOk_of_tree (rm : RouterModel) (r : Req) (t : TrieNode Handler)
    (hTree : rm.treeFor r.method = some t) : (routerDispatch rm r).isOk = true := by
  rw [routerDispatch, hTree]
  cases hm : matchedHandler (TrieNode.goMatch (some t) r.target) with
  | panic => exact absurd hm (matchedHandler_goMatch_some_ne_panic t r.target)
  | ok v =>
    match v with
    | some (h, params) => rfl
    | none =>
      by_cases hh : r.method = "HEAD"
      all_goals simp only [hh, reduceIte]
      · cases hm2 : matchedHandler (TrieNode.goMatch (some rm.getTree) r.target) with
        | panic => exact absurd hm2 (matchedHandler_goMatch_some_ne_panic _ _)
        | ok v2 =>
          match v2 with
          | some (h, params) => rfl
          | none =>
            cases hm3 : matchedHandler (TrieNode.goMatch (some rm.anyTree) r.target) with
            | panic => exact absurd hm3 (matchedHandler_goMatch_some_ne_panic _ _)
            | ok v3 =>
              match v3 with
              | some (h, params) => rfl
              | none =>
                dsimp only
                split <;> rfl
      · cases hm3 : matchedHandler (TrieNode.goMatch (some rm.anyTree) r.target) with
        | panic => exact absurd hm3 (matchedHandler_goMatch_some_ne_panic _ _)
        | ok v3 =>
          match v3 with
          | some (h, params) => rfl
          | none =>
            dsimp only
            split <;> rfl

/-! ## Claim theorems -/

/-- Claim C2 (code bug).  For the seven parser-accepted methods that own a
tree in the router's map (GET, POST, PUT, PATCH, DELETE, OPTIONS, HEAD) the
routing handler always returns a response, but the map built by `NewRouter`
has no "TRACE" entry: dispatching a parsed `TRACE /foo` request looks up a
nil tree and `Match` dereferences it — the composite handler panics instead
of producing a response, contradicting "the router never errors and never
panics". -/
theorem C2_router_totality_and_trace_panic :
    (∀ (rm : RouterModel) (target : String) (hs : Headers),
        (routerDispatch rm (mkReq "GET" target hs)).isOk = true) ∧
    (∀ (rm : RouterModel) (target : String) (hs : Headers),
        (routerDispatch rm (mkReq "POST" target hs)).isOk = true) ∧
    (∀ (rm : RouterModel) (target : String) (hs : Headers),
        (routerDispatch rm (mkReq "PUT" target hs)).isOk = true) ∧
    (∀ (rm : RouterModel) (target : String) (hs : Headers),
        (routerDispatch rm (mkReq "PATCH" target hs)).isOk = true) ∧
    (∀ (rm : RouterModel) (target : String) (hs : Headers),
        (routerDispatch rm (mkReq "DELETE" target hs)).isOk = true) ∧
    (∀ (rm : RouterModel) (target : String) (hs : Headers),
        (routerDispatch rm (mkReq "OPTIONS" target hs)).isOk = true) ∧
    (∀ (rm : RouterModel) (target : String) (hs : Headers),
        (routerDispatch rm (mkReq "HEAD" target hs)).isOk = true) ∧
    routerDispatch newRouterModel (mkReq "TRACE" "/foo" []) = .panic := by
  refine ⟨?_, ?_, ?_, ?_, ?_, ?_, ?_, ?_⟩
  · exact fun rm target hs => dispatch_isOk_of_tree rm _ rm.getTree rfl
  · exact fun rm target hs => dispatch_isOk_of_tree rm _ rm.postTree rfl
  · exact fun rm target hs => dispatch_isOk_of_tree rm _ rm.putTree rfl
  · exact fun rm target hs => dispatch_isOk_of_tree rm _ rm.patchTree rfl
  · exact fun rm target hs => dispatch_isOk_of_tree rm _ rm.deleteTree rfl
  · exact fun rm target hs => dispatch_isOk_of_tree rm _ rm.optionsTree rfl
  · exact fun rm target hs => dispatch_isOk_of_tree rm _ rm.headTree rfl
  · decide

/-- Claim C7 (code bug).  The request-line parser accepts all eight methods
with version `HTTP/1.1` and rejects unknown methods; but because the `.` in
the version part of the regex is unescaped, it also accepts any single
non-LF byte between the two `1`s — `GET /coffee HTTP/1Q1` parses
successfully (with the version reported as "1.1") instead of returning the
malformed-request-line error the claim requires. -/
theorem C7_request_line_regex :
    (methodAlternatives.all (fun m =>
        parseRequestLine (str2b (m ++ " /coffee HTTP/1.1")) ==
          some { method := m, target := "/coffee", httpVersion := "1.1" }) = true) ∧
    parseRequestLine (str2b "BREW /coffee HTTP/1.1") = none ∧
    parseRequestLine (str2b "GET /coffee HTTP/1.0") = none ∧
    parseRequestLine (str2b "GET /coffee HTTP/2.1") = none ∧
    parseRequestLine (str2b "GET /coffee ICECOLD/1.1") = none ∧
    parseRequestLine (str2b "GET /a b HTTP/1.1") = none ∧
    parseRequestLine (str2b "GET /coffee HTTP/1Q1") =
      some { method := "GET", target := "/coffee", httpVersion := "1.1" } := by
  decide

/-- Claim C4 (confirmed).  Each writer operation succeeds exactly in its own
state, appending its bytes to the sink and advancing the state one step
(status-line → headers → body → done); in any other state it returns the
corresponding already-written error and leaves both the state and the sink
untouched. -/
theorem C4_writer_state_machine :
    (∀ (rw : RW) (code : Nat),
      (rw.state = .statusLine →
        writeStatusLine rw code =
          (none, { out := rw.out ++ statusLineBytes code, state := .headersState })) ∧
      (rw.state ≠ .statusLine →
        writeStatusLine rw code = (some .statusLineAlreadyWritten, rw))) ∧
    (∀ (rw : RW) (h : Headers),
      (rw.state = .headersState →
        writeHeaders rw h =
          (none, { out := rw.out ++ headerBlockBytes h, state := .bodyState })) ∧
      (rw.state ≠ .headersState →
        writeHeaders rw h = (some .headersAlreadyWritten, rw))) ∧
    (∀ (rw : RW) (b : Bytes),
      (rw.state = .bodyState →
        writeBody rw b = (none, { out := rw.out ++ b, state := .done })) ∧
      (rw.state ≠ .bodyState →
        writeBody rw b = (some .bodyAlreadyWritten, rw))) ∧
    (∀ s : RState, s ≠ .done → (RState.advance s).idx = s.idx + 1) := by
  refine ⟨?_, ?_, ?_, ?_⟩
  · intro rw code
    constructor
    · intro h
      rw [writeStatusLine, if_neg (by simp [h]), h]
      rfl
    · intro h
      rw [writeStatusLine, if_pos h]
  · intro rw h
    constructor
    · intro hst
      rw [writeHeaders, if_neg (by simp [hst]), hst]
      rfl
    · intro hst
      rw [writeHeaders, if_pos hst]
  · intro rw b
    constructor
    · intro hst
      rw [writeBody, if_neg (by simp [hst]), hst]
      rfl
    · intro hst
      rw [writeBody, if_pos hst]
  · intro s hs
    cases s with
    | statusLine => rfl
    | headersState => rfl
    | bodyState => rfl
    | done => exact absurd rfl hs

/-- Witness for C4: a fresh writer accepts the status line and advances; a
body write on a fresh writer is rejected with `ErrNoBodyState` and changes
nothing. -/
theorem C4_writer_state_machine_witness :
    writeStatusLine newResponseWriter 200 =
      (none, { out := statusLineBytes 200, state := .headersState }) ∧
    writeBody newResponseWriter (str2b "x") =
      (some .bodyAlreadyWritten, newResponseWriter) :=
  ⟨(C4_writer_state_machine.1 newResponseWriter 200).1 rfl,
   (C4_writer_state_machine.2.2.1 newResponseWriter (str2b "x")).2 (by decide)⟩

/-- Claim C1 (confirmed).  Each step of `Match` resolves a segment with
static-first / parameter-next / wildcard-last precedence: a static child is
taken unconditionally, the parameter child only when no static child matches
(binding the segment under the parameter name), and the wildcard child only
when neither matches, binding the slash-joined remainder and ending the walk.
Consequently, with `/users/:id` and `/users/admin` registered in one tree,
`/users/admin` yields the static handler with an empty parameter map and
`/users/42` yields the parameter handler with `{id: "42"}` (and the wildcard
scenario binds the remainder including internal slashes). -/
theorem C1_trie_precedence :
    (∀ {α : Type} (n : TrieNode α) (s : String) (rest : List String) (params : Params)
        (child : TrieNode α), s ≠ "" → lookupChild n.children s = some child →
        TrieNode.matchSegs (some n) (s :: rest) params =
          TrieNode.matchSegs (some child) rest params) ∧
    (∀ {α : Type} (n : TrieNode α) (s : String) (rest : List String) (params : Params)
        (child : TrieNode α), s ≠ "" → lookupChild n.children s = none →
        n.paramChild = some child →
        TrieNode.matchSegs (some n) (s :: rest) params =
          TrieNode.matchSegs (some child) rest (params ++ [(n.paramName, s)])) ∧
    (∀ {α : Type} (n : TrieNode α) (s : String) (rest : List String) (params : Params)
        (w : TrieNode α), s ≠ "" → lookupChild n.children s = none →
        n.paramChild = none → n.wildcardChild = some w →
        TrieNode.matchSegs (some n) (s :: rest) params =
          .ok (some (w.handler, params ++ [(n.wildcardName, joinSlash (s :: rest))]))) ∧
    TrieNode.goMatch (some c1Tree) "/users/admin" = .ok (some (some 2, [])) ∧
    TrieNode.goMatch (some c1Tree) "/users/42" = .ok (some (some 1, [("id", "42")])) ∧
    TrieNode.goMatch (some c1WildTree) "/static/css/main.css" =
      .ok (some (some 7, [("path", "css/main.css")])) := by
  refine ⟨?_, ?_, ?_, by decide, by decide, by decide⟩
  · intro α n s rest params child hs hl
    rw [TrieNode.matchSegs, if_neg hs, hl]
  · intro α n s rest params child hs hl hp
    rw [TrieNode.matchSegs, if_neg hs, hl, hp]
  · intro α n s rest params w hs hl hp hw
    rw [TrieNode.matchSegs, if_neg hs, hl, hp, hw]

/-- Witness for C1: the three precedence steps evaluated at concrete nodes. -/
theorem C1_trie_precedence_witness :
    TrieNode.matchSegs (some wStatic) ["a"] [] =
      TrieNode.matchSegs (some (TrieNode.new : TrieNode Nat)) [] [] ∧
    TrieNode.matchSegs (some wParam) ["x"] [] =
      TrieNode.matchSegs (some (TrieNode.new : TrieNode Nat)) [] [("p", "x")] ∧
    TrieNode.matchSegs (some wWild) ["x", "y"] [] =
      .ok (some (some 9, [("w", joinSlash ["x", "y"])])) :=
  ⟨C1_trie_precedence.1 wStatic "a" [] [] TrieNode.new (by decide) rfl,
   C1_trie_precedence.2.1 wParam "x" [] [] TrieNode.new (by decide) rfl rfl,
   C1_trie_precedence.2.2.1 wWild "x" ["y"] [] _ (by decide) rfl rfl rfl⟩

/-- Claim C10 (confirmed).  The router matches on the raw target including
the query string: with `GET /home` and `GET /users/:id` registered, the
target `/home?x=1` does not match the static route (falling through to the
not-found handler), while `/users/42?x=1` matches the parameter route and
binds `id` to `"42?x=1"` — even though the query substring the parser cuts
from the same target is `x=1`. -/
theorem C10_raw_target_matching :
    (∀ hHome hUser : Handler,
      routerDispatch (c10Router hHome hUser) (mkReq "GET" "/home?x=1" []) =
        .ok (defaultNotFoundHandler (mkReq "GET" "/home?x=1" []))) ∧
    (∀ hHome hUser : Handler,
      routerDispatch (c10Router hHome hUser) (mkReq "GET" "/users/42?x=1" []) =
        .ok (hUser { method := "GET", target := "/users/42?x=1", headers := [],
                     pathParams := [("id", "42?x=1")] })) ∧
    queryStringOf "/home?x=1" = "x=1" ∧ queryStringOf "/users/42?x=1" = "x=1" := by
  refine ⟨fun hHome hUser => rfl, fun hHome hUser => rfl, by decide, by decide⟩

/-- Claim C3 (confirmed).  When the request method's tree yields no handler,
the HEAD→GET fallback does not apply, and the ANY tree yields no handler:
if some other method's tree matches the path the dispatcher answers 405 with
body "Method Not Allowed"; if no tree matches at all it invokes the
not-found handler, whose default produces status 404. -/
theorem C3_405_vs_404 :
    (∀ (rm : RouterModel) (r : Req),
      matchedHandler (TrieNode.goMatch (rm.treeFor r.method) r.target) = .ok none →
      (r.method = "HEAD" →
        matchedHandler (TrieNode.goMatch (some rm.getTree) r.target) = .ok none) →
      matchedHandler (TrieNode.goMatch (some rm.anyTree) r.target) = .ok none →
      (∃ m t, m ∈ treeKeys ∧ m ≠ r.method ∧ m ≠ "ANY" ∧ rm.treeFor m = some t ∧
          treeMatches t r.target = true) →
      routerDispatch rm r = .ok ((newTextResponse (GetStatusReason 405)).withStatusCode 405)) ∧
    (∀ (rm : RouterModel) (r : Req),
      matchedHandler (TrieNode.goMatch (rm.treeFor r.method) r.target) = .ok none →
      (r.method = "HEAD" →
        matchedHandler (TrieNode.goMatch (some rm.getTree) r.target) = .ok none) →
      matchedHandler (TrieNode.goMatch (some rm.anyTree) r.target) = .ok none →
      (∀ m t, m ∈ treeKeys → rm.treeFor m = some t → treeMatches t r.target = false) →
      routerDispatch rm r = .ok (rm.notFoundHandler r)) ∧
    ((newTextResponse (GetStatusReason 405)).withStatusCode 405).status = 405 ∧
    ((newTextResponse (GetStatusReason 405)).withStatusCode 405).body =
      some (str2b "Method Not Allowed") ∧
    (∀ r, (defaultNotFoundHandler r).status = 404) := by
  refine ⟨?_, ?_, by decide, by decide, fun r => rfl⟩
  · rintro rm r h1 h2 h3 ⟨m, t, hmem, hne1, hne2, htf, hmatch⟩
    rw [routerDispatch]
    rw [h1]
    have hany : (treeKeys.any (fun m =>
        m ≠ r.method && m ≠ "ANY" &&
        (match rm.treeFor m with
         | some t => treeMatches t r.target
         | none => false))) = true := by
      refine List.any_eq_true.mpr ⟨m, hmem, ?_⟩
      rw [htf]
      simp [hne1, hne2, hmatch]
    have hhead : (if r.method = "HEAD"
        then matchedHandler (TrieNode.goMatch (some rm.getTree) r.target)
        else GoResult.ok none) = GoResult.ok none := by
      by_cases hh : r.method = "HEAD"
      · rw [if_pos hh, h2 hh]
      · rw [if_neg hh]
    rw [hhead, h3, hany]
    simp
  · intro rm r h1 h2 h3 h4
    rw [routerDispatch]
    rw [h1]
    have hany : (treeKeys.any (fun m =>
        m ≠ r.method && m ≠ "ANY" &&
        (match rm.treeFor m with
         | some t => treeMatches t r.target
         | none => false))) = false := by
      refine List.any_eq_false.mpr ?_
      intro m hmem
      cases htf : rm.treeFor m with
      | none => simp
      | some t => simp [h4 m t hmem htf]
    have hhead : (if r.method = "HEAD"
        then matchedHandler (TrieNode.goMatch (some rm.getTree) r.target)
        else GoResult.ok none) = GoResult.ok none := by
      by_cases hh : r.method = "HEAD"
      · rw [if_pos hh, h2 hh]
      · rw [if_neg hh]
    rw [hhead, h3, hany]
    simp

/-- Witness for C3: with only `GET /home` registered, `POST /home` answers
405 "Method Not Allowed" and `POST /nope` falls to the default 404 handler. -/
theorem C3_405_vs_404_witness :
    routerDispatch (homeOnlyRouter c3Handler) (mkReq "POST" "/home" []) =
      .ok ((newTextResponse (GetStatusReason 405)).withStatusCode 405) ∧
    routerDispatch (homeOnlyRouter c3Handler) (mkReq "POST" "/nope" []) =
      .ok (defaultNotFoundHandler (mkReq "POST" "/nope" [])) := by
  constructor
  · exact C3_405_vs_404.1 (homeOnlyRouter c3Handler) (mkReq "POST" "/home" []) rfl
      (fun h => absurd h (by decide)) rfl
      ⟨"GET", (homeOnlyRouter c3Handler).getTree, by decide, by decide, by decide, rfl, rfl⟩
  · exact C3_405_vs_404.2.1 (homeOnlyRouter c3Handler) (mkReq "POST" "/nope" []) rfl
      (fun h => absurd h (by decide)) rfl
      (by
        intro m t hmem htf
        fin_cases hmem <;> (injection htf with h; rw [← h]; rfl))

/-! ### Header-collection lemmas -/

theorem toLowerByte_idem (b : Nat) : toLowerByte (toLowerByte b) = toLowerByte b := by
  by_cases h : 65 ≤ b ∧ b ≤ 90
  · have h1 : toLowerByte b = b + 32 := by rw [toLowerByte, if_pos h]
    have h2 : toLowerByte (b + 32) = b + 32 := by
      rw [toLowerByte, if_neg (show ¬(65 ≤ b + 32 ∧ b + 32 ≤ 90) by omega)]
    rw [h1, h2]
  · have h1 : toLowerByte b = b := by rw [toLowerByte, if_neg h]
    rw [h1, h1]

theorem toLowerB_idem (s : Bytes) : toLowerB (toLowerB s) = toLowerB s := by
  unfold toLowerB
  rw [List.map_map]
  exact List.map_congr_left (fun b _ => toLowerByte_idem b)

theorem hLookup_hUpdate_self (h : Headers) (key v ex : Bytes)
    (hl : hLookup h key = some ex) : hLookup (hUpdate h key v) key = some v := by
  induction h with
  | nil => exact absurd hl (by simp [hLookup])
  | cons p rest ih =>
    rw [hLookup] at hl
    rw [hUpdate]
    by_cases hp : p.1 = key
    · rw [if_pos hp, hLookup, if_pos hp]
    · rw [if_neg hp, hLookup, if_neg hp]
      rw [if_neg hp] at hl
      exact ih hl

theorem hLookup_hUpdate_other (h : Headers) (key v q : Bytes) (hq : q ≠ key) :
    hLookup (hUpdate h key v) q = hLookup h q := by
  induction h with
  | nil => rfl
  | cons p rest ih =>
    rw [hUpdate]
    by_cases hp : p.1 = key
    · rw [if_pos hp, hLookup, if_neg (by rw [hp]; exact fun e => hq e.symm),
        hLookup, if_neg (by rw [hp]; exact fun e => hq e.symm)]
      exact ih
    · rw [if_neg hp, hLookup, hLookup]
      by_cases hpq : p.1 = q
      · rw [if_pos hpq, if_pos hpq]
      · rw [if_neg hpq, if_neg hpq]
        exact ih

theorem hLookup_append (h₁ h₂ : Headers) (q : Bytes) :
    hLookup (h₁ ++ h₂) q =
      (match hLookup h₁ q with
       | some x => some x
       | none => hLookup h₂ q) := by
  induction h₁ with
  | nil => rfl
  | cons p rest ih =>
    rw [List.cons_append, hLookup, hLookup]
    by_cases hp : p.1 = q
    · rw [if_pos hp, if_pos hp]
    · rw [if_neg hp, if_neg hp]
      exact ih

/-- How `Add` transforms a raw lookup, for valid names and values. -/
theorem hLookup_hAdd (h : Headers) (k v q : Bytes)
    (hk : isValidFieldName k = true) (hv : isValidFieldValue v = true) :
    hLookup (hAdd h k v) q =
      if q = toLowerB k then
        (match hLookup h (toLowerB k) with
         | some ex => some (ex ++ str2b ", " ++ v)
         | none => some v)
      else hLookup h q := by
  rw [hAdd, hk, hv]
  rw [if_neg (by simp)]
  cases hl : hLookup h (normalizeKey k) with
  | some ex =>
    have hl' : hLookup h (toLowerB k) = some ex := hl
    rw [hl']
    by_cases hq : q = toLowerB k
    · rw [if_pos hq, hq]
      exact hLookup_hUpdate_self h (normalizeKey k) (ex ++ str2b ", " ++ v) ex hl
    · rw [if_neg hq]
      exact hLookup_hUpdate_other h (normalizeKey k) (ex ++ str2b ", " ++ v) q hq
  | none =>
    have hl' : hLookup h (toLowerB k) = none := hl
    rw [hLookup_append]
    by_cases hq : q = toLowerB k
    · rw [if_pos hq, hq, hl']
      rw [hLookup, if_pos (show (normalizeKey k, v).1 = toLowerB k from rfl)]
    · rw [if_neg hq]
      cases hlq : hLookup h q with
      | some x => rfl
      | none =>
        rw [hLookup, if_neg (show ¬(normalizeKey k, v).1 = q from fun e => hq e.symm)]
        rfl

theorem combineVals_some (vs : List Bytes) :
    ∀ s : Bytes, combineVals (some s) vs = some (joinComma (s :: vs)) := by
  induction vs with
  | nil => intro s; rfl
  | cons v vs ih =>
    intro s
    show combineVals (some (s ++ str2b ", " ++ v)) vs = _
    rw [ih]
    congr 1
    cases vs with
    | nil => rfl
    | cons w ws =>
      show (s ++ str2b ", " ++ v) ++ str2b ", " ++ joinComma (w :: ws) =
        s ++ str2b ", " ++ (v ++ str2b ", " ++ joinComma (w :: ws))
      simp [List.append_assoc]

theorem combineVals_none (vs : List Bytes) (hne : vs ≠ []) :
    combineVals none vs = some (joinComma vs) := by
  cases vs with
  | nil => exact absurd rfl hne
  | cons v vs =>
    show combineVals (some v) vs = _
    exact combineVals_some vs v

/-- The raw lookup after a sequence of `Add` calls folds the matching values
onto whatever the key already held. -/
theorem applyAdds_lookup (adds : List (Bytes × Bytes)) :
    ∀ (h : Headers) (q : Bytes),
    (∀ p ∈ adds, isValidFieldName p.1 = true ∧ isValidFieldValue p.2 = true) →
    hLookup (applyAdds h adds) q =
      combineVals (hLookup h q) ((adds.filter (fun p => toLowerB p.1 == q)).map (·.2)) := by
  induction adds with
  | nil => intro h q _; rfl
  | cons kv rest ih =>
    intro h q hvalid
    obtain ⟨hk, hv⟩ := hvalid kv (by simp)
    have hrest : ∀ p ∈ rest, isValidFieldName p.1 = true ∧ isValidFieldValue p.2 = true :=
      fun p hp => hvalid p (by simp [hp])
    show hLookup (applyAdds (hAdd h kv.1 kv.2) rest) q = _
    rw [ih (hAdd h kv.1 kv.2) q hrest]
    rw [hLookup_hAdd h kv.1 kv.2 q hk hv]
    by_cases hq : toLowerB kv.1 = q
    · rw [if_pos hq.symm, List.filter_cons_of_pos (by simp [hq]), List.map_cons, hq]
      cases hl : hLookup h q with
      | some ex => rfl
      | none => rfl
    · rw [if_neg (fun e => hq e.symm), List.filter_cons_of_neg (by simp [hq])]

theorem keys_hUpdate (h : Headers) (key v : Bytes)
    (hKeys : ∀ p ∈ h, toLowerB p.1 = p.1) : ∀ p ∈ hUpdate h key v, toLowerB p.1 = p.1 := by
  induction h with
  | nil => intro p hp; exact absurd hp (by simp [hUpdate])
  | cons p0 rest ih =>
    intro p hp
    rw [hUpdate] at hp
    by_cases hp0 : p0.1 = key
    · rw [if_pos hp0] at hp
      rcases List.mem_cons.mp hp with h1 | h1
      · rw [h1]
        exact hKeys p0 (by simp)
      · exact ih (fun p hp => hKeys p (by simp [hp])) p h1
    · rw [if_neg hp0] at hp
      rcases List.mem_cons.mp hp with h1 | h1
      · rw [h1]
        exact hKeys p0 (by simp)
      · exact ih (fun p hp => hKeys p (by simp [hp])) p h1

theorem keysLower_hAdd (h : Headers) (k v : Bytes)
    (hKeys : ∀ p ∈ h, toLowerB p.1 = p.1) : ∀ p ∈ hAdd h k v, toLowerB p.1 = p.1 := by
  rw [hAdd]
  by_cases hval : (isValidFieldName k && isValidFieldValue v) = true
  · rw [hval, if_neg (by simp)]
    cases hl : hLookup h (normalizeKey k) with
    | some ex => exact keys_hUpdate h (normalizeKey k) (ex ++ str2b ", " ++ v) hKeys
    | none =>
      intro p hp
      rcases List.mem_append.mp hp with h1 | h1
      · exact hKeys p h1
      · rcases List.mem_singleton.mp h1 with rfl
        exact toLowerB_idem k
  · rw [Bool.not_eq_true] at hval
    rw [hval]
    simpa using hKeys

/-- Claim C6 (confirmed).  For any sequence of `Add` calls with valid names
and values, under any capitalisation, `Get` returns the values added under
(case-insensitive matches of) the queried name joined by `", "` in insertion
order; stored names are canonically lower-case and lookups normalise their
argument, so they are case-insensitive. -/
theorem C6_headers_add_get :
    (∀ (adds : List (Bytes × Bytes)) (k : Bytes),
      (∀ p ∈ adds, isValidFieldName p.1 = true ∧ isValidFieldValue p.2 = true) →
      (adds.filter (fun p => toLowerB p.1 == toLowerB k)) ≠ [] →
      hGet (applyAdds [] adds) k =
        joinComma ((adds.filter (fun p => toLowerB p.1 == toLowerB k)).map (·.2))) ∧
    (∀ adds : List (Bytes × Bytes), ∀ p ∈ applyAdds ([] : Headers) adds, toLowerB p.1 = p.1) ∧
    (∀ (h : Headers) (k : Bytes), hGet h k = hGet h (toLowerB k)) := by
  refine ⟨?_, ?_, ?_⟩
  · intro adds k hvalid hne
    show (hLookup (applyAdds [] adds) (toLowerB k)).getD [] = _
    rw [applyAdds_lookup adds [] (toLowerB k) hvalid]
    rw [show hLookup [] (toLowerB k) = none from rfl]
    rw [combineVals_none _ (by
      intro hmap
      exact hne (List.map_eq_nil_iff.mp hmap))]
    rfl
  · intro adds
    induction adds with
    | nil => simp [applyAdds]
    | cons kv rest ih =>
      -- applyAdds [] (kv :: rest) = applyAdds (hAdd [] kv.1 kv.2) rest;
      -- generalise over the accumulated collection
      have gen : ∀ (h : Headers), (∀ p ∈ h, toLowerB p.1 = p.1) →
          ∀ p ∈ applyAdds h (kv :: rest), toLowerB p.1 = p.1 := by
        clear ih
        induction (kv :: rest) with
        | nil => exact fun h hk p hp => hk p hp
        | cons kv' rest' ih' =>
          intro h hk p hp
          exact ih' (hAdd h kv'.1 kv'.2) (keysLower_hAdd h kv'.1 kv'.2 hk) p hp
      exact gen [] (by simp)
  · intro h k
    rw [hGet, hGet, show normalizeKey (toLowerB k) = toLowerB (toLowerB k) from rfl,
      toLowerB_idem]
    rfl

/-- Witness for C6: adding under "Host" then "HOST" and reading back under
"hOsT" yields `"a, b"`. -/
theorem C6_headers_add_get_witness :
    hGet (applyAdds [] [(str2b "Host", str2b "a"), (str2b "HOST", str2b "b")]) (str2b "hOsT") =
      str2b "a, b" :=
  (C6_headers_add_get.1 [(str2b "Host", str2b "a"), (str2b "HOST", str2b "b")] (str2b "hOsT")
    (by decide) (by decide)).trans (by decide)

/-! ### Connection-validation lemmas -/

theorem checkEncs_error (l : List Bytes) :
    ∀ flag : Bool, (∃ e ∈ l, toLowerB (trimSpaceB e) ≠ str2b "chunked") →
    checkEncs l flag = .error () := by
  induction l with
  | nil => rintro flag ⟨e, he, _⟩; exact absurd he (by simp)
  | cons e rest ih =>
    rintro flag ⟨e', he', hbad⟩
    rw [checkEncs]
    by_cases hhead : toLowerB (trimSpaceB e) ≠ str2b "chunked"
    · rw [if_pos hhead]
    · rw [if_neg hhead]
      rcases List.mem_cons.mp he' with rfl | hmem
      · exact absurd hbad hhead
      · exact ih true ⟨e', hmem, hbad⟩

/-- Claim C8 (confirmed).  After a successful parse, if the Host header is
missing or splits into more than one entry, or both Content-Length and
Transfer-Encoding are present, or some element of the Transfer-Encoding list
does not resolve (trimmed, lower-cased) to "chunked", then the connection
handler writes the bare 400 Bad Request response (empty body), never invokes
the user handler, and marks the connection for closing. -/
theorem C8_server_validation :
    ∀ (handler : Handler) (req : Req),
      (hGet req.headers (str2b "host") = [] ∨
       1 < (splitOnByte 44 (hGet req.headers (str2b "host"))).length ∨
       (hGet req.headers (str2b "content-length") ≠ [] ∧
        hGet req.headers (str2b "transfer-encoding") ≠ []) ∨
       (∃ e ∈ splitOnByte 44 (hGet req.headers (str2b "transfer-encoding")),
          toLowerB (trimSpaceB e) ≠ str2b "chunked")) →
      handleParsed handler req =
        { resp := badReqResponse, handlerInvoked := false, closeConn := true } ∧
      badReqResponse.status = 400 ∧ badReqResponse.body = none := by
  intro handler req hbad
  refine ⟨?_, rfl, rfl⟩
  rw [handleParsed]
  by_cases h1 : hGet req.headers (str2b "host") = [] ∨
      1 < (splitOnByte 44 (hGet req.headers (str2b "host"))).length
  · rw [if_pos h1]
  · rw [if_neg h1]
    by_cases h2 : hGet req.headers (str2b "content-length") ≠ [] ∧
        hGet req.headers (str2b "transfer-encoding") ≠ []
    · rw [if_pos h2]
    · rw [if_neg h2]
      have hte : ∃ e ∈ splitOnByte 44 (hGet req.headers (str2b "transfer-encoding")),
          toLowerB (trimSpaceB e) ≠ str2b "chunked" := by
        rcases hbad with h | h | h | h
        · exact absurd (Or.inl h) h1
        · exact absurd (Or.inr h) h1
        · exact absurd h h2
        · exact h
      obtain ⟨e, he, hbad'⟩ := hte
      have herr : transferEncodings req.headers = .error () := by
        rw [transferEncodings]
        exact checkEncs_error _ false ⟨e, List.mem_reverse.mpr he, hbad'⟩
      rw [herr]

/-- Witness for C8: a request with `Transfer-Encoding: gzip` is rejected with
the bare 400 response, skipping the handler and closing the connection. -/
theorem C8_server_validation_witness :
    handleParsed c3Handler c8Req =
      { resp := badReqResponse, handlerInvoked := false, closeConn := true } :=
  (C8_server_validation c3Handler c8Req
    (Or.inr (Or.inr (Or.inr ⟨str2b "gzip", by decide, by decide⟩)))).1

/-! ### Chunked-coding lemmas: hexadecimal round trip -/

theorem hexDigitVal_hexDigitChar (k : Nat) (hk : k < 16) :
    hexDigitVal (hexDigitChar k) = some k := by
  rw [hexDigitChar]
  by_cases h10 : k < 10
  · rw [if_pos h10, hexDigitVal, if_pos (by omega)]
    congr 1
    omega
  · rw [if_neg h10, hexDigitVal, if_neg (by omega), if_pos (by omega)]
    congr 1
    omega

theorem parseHexDigits_append (xs ys : Bytes) :
    ∀ acc : Nat, parseHexDigits (xs ++ ys) acc =
      (match parseHexDigits xs acc with
       | none => none
       | some m => parseHexDigits ys m) := by
  induction xs with
  | nil => intro acc; rfl
  | cons x xs ih =>
    intro acc
    rw [List.cons_append, parseHexDigits, parseHexDigits]
    cases hexDigitVal x with
    | none => rfl
    | some v => exact ih (acc * 16 + v)

theorem parseHexDigits_toHexAux (fuel : Nat) :
    ∀ (n acc : Nat), n ≤ fuel →
    parseHexDigits (toHexAux fuel n) acc =
      some (acc * 16 ^ (toHexAux fuel n).length + n) := by
  induction fuel with
  | zero =>
    intro n acc hn
    interval_cases n
    simp [toHexAux, parseHexDigits]
  | succ fuel ih =>
    intro n acc hn
    by_cases h0 : n = 0
    · rw [toHexAux, if_pos h0, h0]
      simp [parseHexDigits]
    · rw [toHexAux, if_neg h0]
      rw [parseHexDigits_append]
      rw [ih (n / 16) acc (by omega)]
      simp only [parseHexDigits]
      rw [hexDigitVal_hexDigitChar (n % 16) (by omega)]
      simp only [parseHexDigits]
      rw [List.length_append, List.length_singleton, pow_succ]
      congr 1
      rw [Nat.add_mul, Nat.add_assoc, Nat.div_add_mod' n 16, Nat.mul_assoc]

theorem toHexAux_mem (fuel : Nat) :
    ∀ n : Nat, ∀ b ∈ toHexAux fuel n, (48 ≤ b ∧ b ≤ 57) ∨ (97 ≤ b ∧ b ≤ 102) := by
  induction fuel with
  | zero => intro n b hb; exact absurd hb (by simp [toHexAux])
  | succ fuel ih =>
    intro n b hb
    rw [toHexAux] at hb
    by_cases h0 : n = 0
    · rw [if_pos h0] at hb
      exact absurd hb (by simp)
    · rw [if_neg h0] at hb
      rcases List.mem_append.mp hb with h | h
      · exact ih (n / 16) b h
      · rcases List.mem_singleton.mp h with rfl
        rw [hexDigitChar]
        by_cases h10 : n % 16 < 10
        · rw [if_pos h10]; omega
        · rw [if_neg h10]
          have : n % 16 < 16 := Nat.mod_lt _ (by omega)
          omega

theorem toHex_mem (n : Nat) : ∀ b ∈ toHex n, (48 ≤ b ∧ b ≤ 57) ∨ (97 ≤ b ∧ b ≤ 102) := by
  rw [toHex]
  by_cases h0 : n = 0
  · rw [if_pos h0]
    intro b hb
    rcases List.mem_singleton.mp hb with rfl
    omega
  · rw [if_neg h0]
    exact toHexAux_mem n n

theorem toHex_ne_nil (n : Nat) : toHex n ≠ [] := by
  rw [toHex]
  by_cases h0 : n = 0
  · rw [if_pos h0]; simp
  · rw [if_neg h0]
    cases n with
    | zero => exact absurd rfl h0
    | succ m =>
      rw [toHexAux, if_neg h0]
      simp

theorem parseHexadecimal_toHex (n : Nat) (hn : n < 2 ^ 63) :
    parseHexadecimal (toHex n) = some (n : Int) := by
  have hmem := toHex_mem n
  have hnonsign : ¬((toHex n).head? = some 43 ∨ (toHex n).head? = some 45) := by
    rintro (h | h) <;>
    · cases hh : toHex n with
      | nil => rw [hh] at h; exact absurd h (by simp)
      | cons b bs =>
        rw [hh] at h
        have hb := hmem b (by rw [hh]; simp)
        simp only [List.head?] at h
        have : b = 43 ∨ b = 45 := by
          rcases Option.some.inj h with h'
          omega
        omega
  have hparse : parseHexDigits (toHex n) 0 = some n := by
    rw [toHex]
    by_cases h0 : n = 0
    · rw [if_pos h0, h0]
      rfl
    · rw [if_neg h0]
      rw [parseHexDigits_toHexAux n n 0 le_rfl]
      simp
  rw [parseHexadecimal]
  rw [if_neg (by
    intro hc
    rcases Bool.or_eq_true_iff.mp hc with h | h
    · exact hnonsign (Or.inl (by simpa using h))
    · exact hnonsign (Or.inr (by simpa using h)))]
  rw [if_neg (by
    intro hc
    exact toHex_ne_nil n (List.isEmpty_iff.mp hc))]
  rw [hparse]
  dsimp only
  rw [if_pos hn]

/-! ### Chunked-coding lemmas: framing -/

theorem takeWhile_eq_self {α : Type} {p : α → Bool} :
    ∀ l : List α, (∀ b ∈ l, p b = true) → l.takeWhile p = l := by
  intro l h
  induction l with
  | nil => rfl
  | cons a l ih =>
    rw [List.takeWhile_cons, if_pos (h a (by simp))]
    rw [ih (fun b hb => h b (by simp [hb]))]

/-- The CRLF line reader returns exactly the bytes before the first CRLF
when the line itself contains no CR. -/
theorem splitCRLF_append (l rest : Bytes) (h13 : 13 ∉ l) :
    splitCRLF (l ++ 13 :: 10 :: rest) = (l, some rest) := by
  induction l with
  | nil =>
    rw [List.nil_append, splitCRLF, if_pos ⟨rfl, rfl⟩]
  | cons b l' ih =>
    have hb : b ≠ 13 := fun hb => h13 (by simp [hb])
    have h13' : 13 ∉ l' := fun hm => h13 (by simp [hm])
    cases l' with
    | nil =>
      rw [List.cons_append, List.nil_append, splitCRLF,
        if_neg (fun hc => hb hc.1)]
      rw [splitCRLF, if_pos ⟨rfl, rfl⟩]
    | cons c l'' =>
      rw [show (b :: c :: l'') ++ 13 :: 10 :: rest =
          b :: c :: (l'' ++ 13 :: 10 :: rest) from rfl]
      rw [splitCRLF, if_neg (fun hc => hb hc.1)]
      rw [show (c :: (l'' ++ 13 :: 10 :: rest) : Bytes) =
          (c :: l'') ++ 13 :: 10 :: rest from rfl]
      rw [ih h13']

/-- Reading a size line framed as `size CRLF tail`. -/
theorem readSizeLine_frame (sz tail : Bytes) (k : Int) (h13 : 13 ∉ sz)
    (hk : parseHexadecimal (sz.takeWhile (fun b => !(b == 59))) = some k) :
    readSizeLine (sz ++ 13 :: 10 :: tail) = some (k, tail) := by
  simp only [readSizeLine, splitCRLF_append sz tail h13]
  rw [hk]
  rfl

/-- The loop `decodeChunks` undoes the encoder's chunk frames, leaving the bytes after
the zero-size line untouched. -/
theorem decodeChunks_encode (blocks : List Bytes) :
    ∀ (fuel : Nat) (acc : Bytes) (t : Headers), blocks.length + 1 ≤ fuel →
    (∀ b ∈ blocks, b ≠ [] ∧ b.length ≤ 4096) →
    decodeChunks fuel ((blocks.map chunkFrame).flatten ++ terminalChunk t) acc =
      some (acc ++ blocks.flatten, trailerBlock t ++ crlfB) := by
  induction blocks with
  | nil =>
    intro fuel acc t hfuel _
    cases fuel with
    | zero => omega
    | succ f =>
      have hsize : readSizeLine (((List.map chunkFrame []).flatten : Bytes) ++ terminalChunk t) =
          some ((0 : Int), trailerBlock t ++ crlfB) := by
        show readSizeLine ([48] ++ 13 :: 10 :: (trailerBlock t ++ crlfB)) = _
        exact readSizeLine_frame [48] _ 0 (by decide) (by decide)
      simp only [decodeChunks]
      rw [hsize]
      simp
  | cons b bs ih =>
    intro fuel acc t hfuel hblocks
    obtain ⟨hbne, hble⟩ := hblocks b (by simp)
    have hbs : ∀ x ∈ bs, x ≠ [] ∧ x.length ≤ 4096 := fun x hx => hblocks x (by simp [hx])
    have hbpos : 0 < b.length := List.length_pos.mpr hbne
    cases fuel with
    | zero => simp at hfuel
    | succ f =>
      have hrearrange : ((List.map chunkFrame (b :: bs)).flatten : Bytes) ++ terminalChunk t =
          toHex b.length ++ 13 :: 10 ::
            (b ++ 13 :: 10 :: ((List.map chunkFrame bs).flatten ++ terminalChunk t)) := by
        simp only [List.map_cons, List.flatten_cons, chunkFrame, crlfB]
        simp [List.append_assoc]
      rw [hrearrange]
      have h13 : 13 ∉ toHex b.length := by
        intro hmem
        have := toHex_mem _ _ hmem
        omega
      have hk : parseHexadecimal ((toHex b.length).takeWhile (fun x => !(x == 59))) =
          some (b.length : Int) := by
        rw [takeWhile_eq_self _ (fun x hx => by
          have := toHex_mem _ _ hx
          simp only [Bool.not_eq_true', beq_eq_false_iff_ne, ne_eq]
          omega)]
        exact parseHexadecimal_toHex _ (by omega)
      simp only [decodeChunks]
      rw [readSizeLine_frame _ _ _ h13 hk]
      dsimp only
      rw [if_neg (show ¬((b.length : Int) ≤ 0) by
        simp only [not_le]
        exact_mod_cast hbpos)]
      rw [show ((b.length : Int)).toNat = b.length from Int.toNat_natCast b.length]
      rw [if_neg (show ¬((b ++ 13 :: 10 ::
            ((List.map chunkFrame bs).flatten ++ terminalChunk t)).length < b.length) by
        rw [List.length_append]
        omega)]
      rw [List.take_left, List.drop_left]
      rw [if_neg (show ¬((13 :: 10 ::
            ((List.map chunkFrame bs).flatten ++ terminalChunk t)).length < 2) by
        simp)]
      rw [if_neg (show ¬((13 :: 10 ::
            ((List.map chunkFrame bs).flatten ++ terminalChunk t)).take 2 ≠ crlfB) by
        intro hne
        exact hne rfl)]
      rw [show (13 :: 10 ::
            ((List.map chunkFrame bs).flatten ++ terminalChunk t)).drop 2 =
          (List.map chunkFrame bs).flatten ++ terminalChunk t from rfl]
      rw [ih f (acc ++ b) t (by simp at hfuel ⊢; omega) hbs]
      simp [List.append_assoc]

/-! ### Chunked-coding lemmas: trailer lines -/

theorem dropWhile_eq_self_of_false {α : Type} {p : α → Bool} :
    ∀ l : List α, (∀ b ∈ l, p b = false) → l.dropWhile p = l := by
  intro l h
  cases l with
  | nil => rfl
  | cons a l => rw [List.dropWhile_cons, if_neg (by rw [h a (by simp)]; simp)]

theorem takeWhile_append_not {p : Nat → Bool} (l : Bytes) (x : Nat) (r : Bytes)
    (hl : ∀ b ∈ l, p b = true) (hx : p x = false) :
    (l ++ x :: r).takeWhile p = l := by
  induction l with
  | nil => rw [List.nil_append, List.takeWhile_cons, if_neg (by rw [hx]; simp)]
  | cons a l ih =>
    rw [List.cons_append, List.takeWhile_cons, if_pos (hl a (by simp))]
    rw [ih (fun b hb => hl b (by simp [hb]))]

theorem tokenByte_facts (b : Nat) (h : isTokenByte b = true) :
    b ≠ 58 ∧ b ≠ 32 ∧ b ≠ 9 ∧ b ≠ 13 := by
  simp only [isTokenByte, Bool.or_eq_true, Bool.and_eq_true, decide_eq_true_eq] at h
  omega

theorem valueByte_facts (b : Nat) (h : validHeaderValueByte b = true) :
    b ≠ 13 ∧ b ≠ 10 := by
  simp only [validHeaderValueByte, Bool.or_eq_true, Bool.and_eq_true, decide_eq_true_eq] at h
  omega

theorem validFieldName_parts (k : Bytes) (h : isValidFieldName k = true) :
    k ≠ [] ∧ ∀ b ∈ k, isTokenByte b = true := by
  simp only [isValidFieldName, Bool.and_eq_true, List.all_eq_true] at h
  refine ⟨?_, h.2⟩
  intro hnil
  rw [hnil] at h
  exact absurd h.1 (by decide)

theorem validFieldValue_parts (v : Bytes) (h : isValidFieldValue v = true) :
    ∀ b ∈ v, validHeaderValueByte b = true := by
  simp only [isValidFieldValue, List.all_eq_true] at h
  exact h

/-- No CR occurs inside an emitted trailer line's content. -/
theorem no_cr_in_field_line (k v : Bytes) (hk : isValidFieldName k = true)
    (hv : isValidFieldValue v = true) : 13 ∉ k ++ 58 :: 32 :: v := by
  intro hmem
  rcases List.mem_append.mp hmem with h | h
  · exact ((tokenByte_facts 13 ((validFieldName_parts k hk).2 13 h)).2.2.2) rfl
  · rcases List.mem_cons.mp h with h' | h'
    · omega
    · rcases List.mem_cons.mp h' with h'' | h''
      · omega
      · exact ((valueByte_facts 13 (validFieldValue_parts v hv 13 h'')).1) rfl

/-- Go `ParseFieldLine` on an emitted `key: value` trailer line reduces to `Add`. -/
theorem parseFieldLine_frame (acc : Headers) (k v : Bytes)
    (hk : isValidFieldName k = true) (hv : isValidFieldValue v = true)
    (hv1 : trimLeftWS v = v) (hv2 : trimRightWS v = v) :
    parseFieldLine acc (k ++ 58 :: 32 :: v) = some (hAdd acc k v) := by
  obtain ⟨kne, ktok⟩ := validFieldName_parts k hk
  have htake : (k ++ 58 :: 32 :: v).takeWhile (fun b => !(b == 58)) = k := by
    refine takeWhile_append_not k 58 (32 :: v) ?_ (by simp)
    intro b hb
    have := (tokenByte_facts b (ktok b hb)).1
    simp [this]
  have hlen : (k ++ 58 :: 32 :: v).length = k.length + (v.length + 2) := by
    simp
  have htlk : trimLeftWS k = k := by
    rw [trimLeftWS]
    refine dropWhile_eq_self_of_false k ?_
    intro b hb
    have h1 := (tokenByte_facts b (ktok b hb)).2.1
    have h2 := (tokenByte_facts b (ktok b hb)).2.2.1
    simp [isSPorTAB, h1, h2]
  have htrs : trimRightSpace k = k := by
    rw [trimRightSpace]
    rw [dropWhile_eq_self_of_false k.reverse (by
      intro b hb
      have := (tokenByte_facts b (ktok b (List.mem_reverse.mp hb))).2.1
      simp [this])]
    exact List.reverse_reverse k
  have hdrop : (k ++ 58 :: 32 :: v).drop (k.length + 1) = 32 :: v := by
    rw [show k ++ 58 :: 32 :: v = (k ++ [58]) ++ (32 :: v) from by simp]
    rw [show k.length + 1 = (k ++ [58]).length from by simp]
    exact List.drop_left _ _
  have hvalEq : trimWS (32 :: v) = v := by
    rw [trimWS, show trimLeftWS (32 :: v) = trimLeftWS v from by
      rw [trimLeftWS, trimLeftWS, List.dropWhile_cons, if_pos (by simp [isSPorTAB])]]
    rw [hv1, hv2]
  simp only [parseFieldLine, htake, hdrop, htlk, hvalEq]
  rw [if_neg (by omega)]
  rw [if_neg (fun hne => hne htrs.symm)]
  rw [if_neg (by rw [hk, hv]; simp)]

/-- The decoder's trailer loop parses the emitted trailer block back into
exactly the encoded collection, appended to the accumulator. -/
theorem readTrailers_encode (t : Headers) :
    ∀ (fuel : Nat) (acc : Headers), t.length + 1 ≤ fuel →
    (∀ p ∈ t, isValidFieldName p.1 = true ∧ toLowerB p.1 = p.1 ∧
      isValidFieldValue p.2 = true) →
    (t.map (·.1)).Nodup →
    (∀ p ∈ t, trimLeftWS p.2 = p.2 ∧ trimRightWS p.2 = p.2) →
    (∀ p ∈ t, hLookup acc p.1 = none) →
    readTrailers fuel (trailerBlock t ++ crlfB) acc = some (acc ++ t) := by
  induction t with
  | nil =>
    intro fuel acc hfuel _ _ _ _
    cases fuel with
    | zero => omega
    | succ f =>
      show readTrailers (f + 1) [13, 10] acc = some (acc ++ [])
      rw [readTrailers, if_neg (by simp)]
      rw [show splitCRLF [13, 10] = ([], some []) from by
        rw [splitCRLF, if_pos ⟨rfl, rfl⟩]]
      simp
  | cons kv rest ih =>
    intro fuel acc hfuel hwf hnodup htrim hfresh
    obtain ⟨hk, hlow, hv⟩ := hwf kv (by simp)
    obtain ⟨hv1, hv2⟩ := htrim kv (by simp)
    obtain ⟨kne, _⟩ := validFieldName_parts kv.1 hk
    have hwfr : ∀ p ∈ rest, isValidFieldName p.1 = true ∧ toLowerB p.1 = p.1 ∧
        isValidFieldValue p.2 = true := fun p hp => hwf p (by simp [hp])
    have htrimr : ∀ p ∈ rest, trimLeftWS p.2 = p.2 ∧ trimRightWS p.2 = p.2 :=
      fun p hp => htrim p (by simp [hp])
    have hnodupr : (rest.map (·.1)).Nodup := by
      rw [List.map_cons, List.nodup_cons] at hnodup
      exact hnodup.2
    have hknotin : kv.1 ∉ rest.map (·.1) := by
      rw [List.map_cons, List.nodup_cons] at hnodup
      exact hnodup.1
    cases fuel with
    | zero => omega
    | succ f =>
      have hline : trailerBlock (kv :: rest) ++ crlfB =
          (kv.1 ++ 58 :: 32 :: kv.2) ++ 13 :: 10 :: (trailerBlock rest ++ crlfB) := by
        simp only [trailerBlock, List.map_cons, List.flatten_cons, trailerLine, crlfB]
        simp [List.append_assoc, show str2b ": " = ([58, 32] : Bytes) from rfl]
      rw [hline]
      have hne : ((kv.1 ++ 58 :: 32 :: kv.2) ++ 13 :: 10 :: (trailerBlock rest ++ crlfB)) ≠ [] := by
        cases hkv : kv.1 with
        | nil => exact absurd hkv kne
        | cons a l => simp
      rw [readTrailers, if_neg (by
        rw [List.isEmpty_iff]
        exact hne)]
      rw [splitCRLF_append _ _ (no_cr_in_field_line kv.1 kv.2 hk hv)]
      dsimp only
      rw [if_neg (by
        rw [List.isEmpty_iff]
        intro hnil
        exact kne (List.append_eq_nil.mp hnil).1)]
      rw [parseFieldLine_frame acc kv.1 kv.2 hk hv hv1 hv2]
      have haddeq : hAdd acc kv.1 kv.2 = acc ++ [(kv.1, kv.2)] := by
        rw [hAdd, if_neg (by rw [hk, hv]; simp)]
        have hnorm : normalizeKey kv.1 = kv.1 := hlow
        rw [hnorm, hfresh kv (by simp)]
      rw [haddeq]
      dsimp only
      rw [ih f (acc ++ [(kv.1, kv.2)]) (by simp at hfuel ⊢; omega) hwfr hnodupr htrimr
        (by
          intro p hp
          rw [hLookup_append]
          rw [hfresh p (by simp [hp])]
          rw [hLookup, if_neg (by
            intro heq
            exact hknotin (heq ▸ List.mem_map_of_mem (·.1) hp)), hLookup])]
      rw [List.append_assoc]
      rfl

/-- Bytes emitted per chunk frame dominate the number of blocks. -/
theorem length_flatten_chunkFrames (blocks : List Bytes) :
    blocks.length ≤ ((blocks.map chunkFrame).flatten).length := by
  induction blocks with
  | nil => simp
  | cons b bs ih =>
    rw [List.map_cons, List.flatten_cons, List.length_cons, List.length_append]
    have : 1 ≤ (chunkFrame b).length := by
      rw [chunkFrame, List.length_append, List.length_append, List.length_append]
      simp [crlfB]
    omega

/-- Bytes emitted per trailer line dominate the number of trailers. -/
theorem length_trailerBlock (t : Headers) : t.length ≤ (trailerBlock t).length := by
  induction t with
  | nil => simp [trailerBlock]
  | cons kv rest ih =>
    rw [trailerBlock, List.map_cons, List.flatten_cons, List.length_append, List.length_cons]
    rw [trailerBlock] at ih
    have : 1 ≤ (trailerLine kv).length := by
      rw [trailerLine, List.length_append, List.length_append, List.length_append]
      simp [crlfB]
    omega

/-- Chunked encode then decode recovers the body and the (trimmed-value)
trailer collection exactly. -/
theorem chunkedDecode_encodeStream (blocks : List Bytes) (t : Headers)
    (hblocks : ∀ b ∈ blocks, b ≠ [] ∧ b.length ≤ 4096)
    (hwf : ∀ p ∈ t, isValidFieldName p.1 = true ∧ toLowerB p.1 = p.1 ∧
      isValidFieldValue p.2 = true)
    (hnodup : (t.map (·.1)).Nodup)
    (htrim : ∀ p ∈ t, trimLeftWS p.2 = p.2 ∧ trimRightWS p.2 = p.2) :
    chunkedDecode (encodeStream blocks t) = some (blocks.flatten, t) := by
  rw [chunkedDecode]
  rw [show encodeStream blocks t = (blocks.map chunkFrame).flatten ++ terminalChunk t from rfl]
  rw [decodeChunks_encode blocks _ [] t (by
    have h1 := length_flatten_chunkFrames blocks
    rw [List.length_append]
    omega) hblocks]
  dsimp only
  rw [readTrailers_encode t _ [] (by
    have h1 := length_trailerBlock t
    rw [List.length_append]
    simp [crlfB]
    omega) hwf hnodup htrim (fun p _ => rfl)]
  simp

/-- Claim C5, counterexample.  The round trip is not the identity for every
trailer collection: a trailer value with a leading space (a valid field-value
octet, so `setTrailer`/`Add` accepts it) comes back trimmed by the decoder's
`ParseFieldLine`. -/
theorem C5_chunked_roundtrip_counterexample :
    chunkedDecode (encodeStream [str2b "hi"] [(str2b "x", str2b " v")]) ≠
      some (([str2b "hi"] : List Bytes).flatten, [(str2b "x", str2b " v")]) := by
  decide

/-- Claim C5 (corrected).  Encoding any upstream read sequence (non-empty
blocks of at most the 4096-byte read buffer) with any populated trailer
collection and decoding the produced bytes yields exactly the concatenated
body; the trailer collection is recovered exactly provided no trailer value
carries leading or trailing SP/HTAB — the decoder trims trailer values, which
is the one deviation from the identity. -/
theorem C5_chunked_roundtrip_amended :
    ∀ (blocks : List Bytes) (t : Headers),
    (∀ b ∈ blocks, b ≠ [] ∧ b.length ≤ 4096) →
    (∀ p ∈ t, isValidFieldName p.1 = true ∧ toLowerB p.1 = p.1 ∧
      isValidFieldValue p.2 = true) →
    (t.map (·.1)).Nodup →
    (∀ p ∈ t, trimLeftWS p.2 = p.2 ∧ trimRightWS p.2 = p.2) →
    chunkedDecode (encodeStream blocks t) = some (blocks.flatten, t) :=
  fun blocks t h1 h2 h3 h4 => chunkedDecode_encodeStream blocks t h1 h2 h3 h4

/-- Witness for C5: a concrete body with a concrete trailer round-trips. -/
theorem C5_chunked_roundtrip_witness :
    chunkedDecode (encodeStream [str2b "hi"] [(str2b "x", str2b "v")]) =
      some (str2b "hi", [(str2b "x", str2b "v")]) :=
  (C5_chunked_roundtrip_amended [str2b "hi"] [(str2b "x", str2b "v")]
    (by decide) (by decide) (by decide) (by decide)).trans (by decide)

/-- Claim C9, counterexample.  The trailer lines the encoder emits after the
zero chunk come from the collection the producer populated, not from the
`NewStreamResponse` trailer list: declaring `Trailer: Expires` while the
producer sets only `x-custom` emits an `x-custom` line and no `expires`
line. -/
theorem C9_trailer_names_counterexample :
    emittedTrailerNames (hAdd [] (str2b "x-custom") (str2b "1")) ≠
      some [toLowerB (str2b "Expires")] ∧
    hGet (newStreamResponse ["Expires"]).headers (str2b "trailer") = str2b "Expires" := by
  decide

/-- Claim C9 (corrected).  At upstream EOF the encoder's total output places
the zero chunk `0 CRLF` after all body frames, then one trailer line per
entry of the populated trailer collection (and no other lines — they parse
back to exactly that collection), then the final CRLF. -/
theorem C9_trailers_after_zero_chunk :
    (∀ (blocks : List Bytes) (t : Headers),
      encodeStream blocks t =
        (blocks.map chunkFrame).flatten ++ (str2b "0" ++ crlfB) ++
          (trailerBlock t ++ crlfB)) ∧
    (∀ t : Headers,
      (∀ p ∈ t, isValidFieldName p.1 = true ∧ toLowerB p.1 = p.1 ∧
        isValidFieldValue p.2 = true) →
      (t.map (·.1)).Nodup →
      (∀ p ∈ t, trimLeftWS p.2 = p.2 ∧ trimRightWS p.2 = p.2) →
      readTrailers ((trailerBlock t ++ crlfB).length + 1) (trailerBlock t ++ crlfB) [] =
        some t) := by
  constructor
  · intro blocks t
    simp [encodeStream, terminalChunk, List.append_assoc]
  · intro t hwf hnodup htrim
    have h := readTrailers_encode t ((trailerBlock t ++ crlfB).length + 1) [] (by
      have h1 := length_trailerBlock t
      rw [List.length_append]
      simp [crlfB]
      omega) hwf hnodup htrim (fun _ _ => rfl)
    simpa using h

/-- Witness for C9: the single populated trailer parses back exactly. -/
theorem C9_trailers_after_zero_chunk_witness :
    readTrailers ((trailerBlock [(str2b "x-custom", str2b "1")] ++ crlfB).length + 1)
      (trailerBlock [(str2b "x-custom", str2b "1")] ++ crlfB) [] =
      some [(str2b "x-custom", str2b "1")] :=
  C9_trailers_after_zero_chunk.2 [(str2b "x-custom", str2b "1")]
    (by decide) (by decide) (by decide)

end Shadowfax
